import Mathlib

/-!
Verification of the zgame555/config configuration-loading library.

Shallow embedding of the Go sources (env.go and the format/flatten module).
Modelling conventions:
* Go strings are modelled as `List Char`; all inputs of interest are ASCII,
  and the ASCII fragment of Go's strings.ToLower / strings.ToUpper is
  modelled character-wise.
* The process environment (os.Getenv / os.Setenv / os.Unsetenv) is modelled
  as an association list `Store` with unique keys; `os.Getenv` returns the
  empty string for an absent key, exactly as in Go.
* Go maps (map[string]interface{}) are modelled as association lists with
  unique keys, iterated in list order; where a claim depends on an iteration
  order of colliding store keys, a Nodup hypothesis on the transformed keys
  makes the statement order-independent.
* The external JSON/YAML parsers (encoding/json, gopkg.in/yaml.v3) are
  collaborators outside the repository; their output is the generic value
  tree `Node`, supplied through the `World` structure.  JSON/YAML numbers in
  the claims are integers and are modelled as `Int`; Go's fmt "%v" renders
  such values in natural decimal form.
* Reading a file (os.Open / os.ReadFile) yields a `FileState`: absent,
  unreadable (exists but fails to open), or its raw content.
-/

/-- Converts a Lean string literal to the character-list representation used
throughout this development. -/
def chars (x : String) : List Char := x.data

/-- ASCII double-quote character (code 34), as scanned by the env parser. -/
def quoteD : Char := Char.ofNat 34

/-- ASCII single-quote character (code 39), as scanned by the env parser. -/
def quoteS : Char := Char.ofNat 39

/-- Whitespace recognised by strings.TrimSpace on the ASCII inputs of this
development: space, tab, newline, carriage return. -/
def isSpaceChar (c : Char) : Bool := c = ' ' || c = '\t' || c = '\n' || c = '\r'

/-- Models strings.TrimSpace: removes leading and trailing whitespace. -/
def trimSpace (l : List Char) : List Char :=
  ((l.dropWhile isSpaceChar).reverse.dropWhile isSpaceChar).reverse

/-- ASCII lower-casing of one character (the ASCII fragment of
strings.ToLower): an upper-case letter gets 32 added to its code point. -/
def asciiToLower (c : Char) : Char :=
  if 65 ≤ c.toNat ∧ c.toNat ≤ 90 then Char.ofNat (c.toNat + 32) else c

/-- ASCII upper-casing of one character (the ASCII fragment of
strings.ToUpper): a lower-case letter gets 32 subtracted from its code
point. -/
def asciiToUpper (c : Char) : Char :=
  if 97 ≤ c.toNat ∧ c.toNat ≤ 122 then Char.ofNat (c.toNat - 32) else c

/-- Models strings.ToLower on ASCII strings. -/
def toLowerL (l : List Char) : List Char := l.map asciiToLower

/-- Models strings.ToUpper on ASCII strings. -/
def toUpperL (l : List Char) : List Char := l.map asciiToUpper

/-- Models strings.SplitN(line, "=", 2): splits at the first '=' only.
Returns none when the line has no '=' (the Go call then yields a single
part, which the loaders skip). -/
def splitEq : List Char → Option (List Char × List Char)
  | [] => none
  | c :: rest =>
    if c = '=' then some ([], rest)
    else (splitEq rest).map (fun p => (c :: p.1, p.2))

/-- Quote removal applied to a parsed env value (env.go lines 188-193 and
their two verbatim copies): when the value has length at least 2 and its
first and last characters are the same quote character, the surrounding
pair is removed; otherwise the value is unchanged. -/
def stripQuotes (v : List Char) : List Char :=
  if 2 ≤ v.length ∧
      ((v.head? = some quoteD ∧ v.getLast? = some quoteD) ∨
       (v.head? = some quoteS ∧ v.getLast? = some quoteS)) then
    (v.drop 1).dropLast
  else v

/-- Processing of one line of an env-format source (the body of the scanner
loop in env.go loadEnvFile / LoadEnvFile and part_000 loadEnvConfig):
trim the line, skip it when empty or a '#' comment or without '=',
otherwise split at the first '=', trim key and value, and strip quotes.
Returns the key/value pair to be recorded, or none for a skipped line. -/
def parseEnvLine (line : List Char) : Option (List Char × List Char) :=
  let l := trimSpace line
  if l = [] ∨ l.head? = some '#' then none
  else
    match splitEq l with
    | none => none
    | some (k, v) => some (trimSpace k, stripQuotes (trimSpace v))

/-- Splits raw file content into lines (the line iteration of
bufio.Scanner / strings.Split on newline; the trailing empty piece and any
carriage returns are neutralised by the trimming and empty-line skipping
of parseEnvLine). -/
def splitLines (data : List Char) : List (List Char) := data.splitOn '\n'

/-- Ambient process-wide key/value store (the process environment),
modelled as an association list with unique keys. -/
abbrev Store := List (List Char × List Char)

/-- Lookup of a key in the store (the presence test underlying os.Getenv
and os.LookupEnv). -/
def lookupStore : Store → List Char → Option (List Char)
  | [], _ => none
  | (k2, v) :: rest, k => if k2 = k then some v else lookupStore rest k

/-- Models os.Setenv: overwrites the binding of the key when present,
otherwise appends a new binding. -/
def setEnv : Store → List Char → List Char → Store
  | [], k, v => [(k, v)]
  | (k2, v2) :: rest, k, v =>
    if k2 = k then (k2, v) :: rest else (k2, v2) :: setEnv rest k v

/-- Models os.Unsetenv: removes every binding of the key. -/
def unsetEnv : Store → List Char → Store
  | [], _ => []
  | (k2, v2) :: rest, k =>
    if k2 = k then unsetEnv rest k else (k2, v2) :: unsetEnv rest k

/-- Models os.Getenv, which returns the empty string for an absent key. -/
def osGetenv (st : Store) (k : List Char) : List Char := (lookupStore st k).getD []

/-- Configuration file format tags (part_000 lines 13-20). -/
inductive ConfigFormat where
  | FormatEnv
  | FormatJSON
  | FormatYAML
deriving DecidableEq

/-- Backward scan of filepath.Ext: traverses the reversed path
accumulating characters until the final dot of the final path element is
found.  Returns the extension including its dot, or the empty string when
the final element has no dot. -/
def extAux : List Char → List Char → List Char
  | [], _ => []
  | c :: rest, acc =>
    if c = '.' then c :: acc
    else if c = '/' then []
    else extAux rest (c :: acc)

/-- Models filepath.Ext on a Unix path: the suffix beginning at the final
dot in the final path element, empty when there is no dot. -/
def extOf (path : List Char) : List Char := extAux path.reverse []

/-- Models detectFormat (part_000 lines 23-33): lower-cased extension
".json" gives JSON, ".yml" or ".yaml" gives YAML, anything else gives
Env. -/
def detectFormat (path : List Char) : ConfigFormat :=
  let ext := toLowerL (extOf path)
  if ext = chars ".json" then ConfigFormat.FormatJSON
  else if ext = chars ".yml" ∨ ext = chars ".yaml" then ConfigFormat.FormatYAML
  else ConfigFormat.FormatEnv

/-- Generic parsed value tree (the map[string]interface{} values produced
by the JSON/YAML parsers): strings, numbers (integral, modelled as Int),
booleans, sequences, and nested mappings. -/
inductive Node where
  | str (v : List Char)
  | num (n : Int)
  | booln (b : Bool)
  | seq (elems : List Node)
  | mapn (entries : List (List Char × Node))

/-- Decimal rendering of an integer, as produced by Go's fmt "%v" for the
integral numbers appearing in this development. -/
def intChars (n : Int) : List Char := (toString n).data

/-- Lexicographic comparison of two character lists by code point, used to
model the sorted key order in which Go's fmt prints maps. -/
def charsLe : List Char → List Char → Bool
  | [], _ => true
  | _ :: _, [] => false
  | a :: as, b :: bs =>
    if a = b then charsLe as bs else decide (a.toNat < b.toNat)

/-- Insertion step of the key-sorted rendering order of Go's fmt for
maps. -/
def insertByKey (p : List Char × List Char) :
    List (List Char × List Char) → List (List Char × List Char)
  | [] => [p]
  | q :: rest => if charsLe p.1 q.1 then p :: q :: rest else q :: insertByKey p rest

/-- Sorts rendered map entries by key (Go's fmt prints map keys in sorted
order). -/
def sortByKey : List (List Char × List Char) → List (List Char × List Char)
  | [] => []
  | p :: rest => insertByKey p (sortByKey rest)

/-- Models strings.Join: concatenates the pieces with the separator
between consecutive pieces; the empty list joins to the empty string. -/
def joinSep (sep : List Char) : List (List Char) → List Char
  | [] => []
  | [x] => x
  | x :: y :: rest => x ++ sep ++ joinSep sep (y :: rest)

/-- Models Go's default stringification fmt.Sprintf("%v", value) of a tree
node: strings are themselves, numbers render in decimal, booleans as
true/false, slices as the space-joined element renderings in brackets, and
maps as map[k1:v1 k2:v2] with keys in sorted order. -/
def goStringify : Node → List Char
  | Node.str v => v
  | Node.num n => intChars n
  | Node.booln b => if b then chars "true" else chars "false"
  | Node.seq xs =>
    '[' :: joinSep [' '] (xs.attach.map fun e => goStringify e.1) ++ [']']
  | Node.mapn es =>
    let rendered := es.attach.map fun e => (e.1.1, goStringify e.1.2)
    chars "map[" ++ joinSep [' '] ((sortByKey rendered).map fun p => p.1 ++ ':' :: p.2) ++ [']']
termination_by n => sizeOf n
decreasing_by
  · have h := List.sizeOf_lt_of_mem e.2
    simp only [Node.seq.sizeOf_spec]
    omega
  · have h := List.sizeOf_lt_of_mem e.2
    have h2 : sizeOf e.1.2 < sizeOf e.1 := by
      obtain ⟨a, b⟩ := e.1
      simp only [Prod.mk.sizeOf_spec]
      omega
    simp only [Node.mapn.sizeOf_spec]
    omega

/-- Models flattenConfig (part_000 lines 115-144): flattens a nested
mapping into dot-joined qualified names; a nested mapping recurses with
the extended key as the new dot-joined qualified-name stem, a sequence
becomes one comma-joined entry of default-stringified elements, and a
scalar becomes one stringified entry. -/
def flattenConfig (cfg : List (List Char × Node)) (pfx : List Char) :
    List (List Char × List Char) :=
  match cfg with
  | [] => []
  | (key, value) :: rest =>
    let fullKey := if pfx = [] then key else pfx ++ '.' :: key
    (match value with
     | Node.mapn m => flattenConfig m fullKey
     | Node.seq xs => [(fullKey, joinSep [','] (xs.map goStringify))]
     | v => [(fullKey, goStringify v)]) ++ flattenConfig rest pfx
termination_by sizeOf cfg
decreasing_by
  all_goals simp_wf <;> omega

/-- Store-key transformation applied by setEnvironmentVariables and
clearEnvironmentVariables (part_000 lines 150 and 161): replace every dot
with an underscore, then upper-case the whole string. -/
def envKey (k : List Char) : List Char :=
  toUpperL (k.map fun c => if c = '.' then '_' else c)

/-- Models setEnvironmentVariables (part_000 lines 147-155): writes every
entry of the flat mapping into the store under its transformed key with
os.Setenv, always overwriting. -/
def setEnvironmentVariables : List (List Char × List Char) → Store → Store
  | [], st => st
  | (k, v) :: rest, st => setEnvironmentVariables rest (setEnv st (envKey k) v)

/-- Models clearEnvironmentVariables (part_000 lines 158-164): removes the
transformed key of every entry of the recorded mapping from the store with
os.Unsetenv. -/
def clearEnvironmentVariables : List (List Char × List Char) → Store → Store
  | [], st => st
  | (k, _) :: rest, st => clearEnvironmentVariables rest (unsetEnv st (envKey k))

/-- Line loop of loadEnvConfig (part_000 lines 79-112): accumulates the
parsed key/value pairs of an env source into a mapping, later lines for
the same key overwriting earlier ones. -/
def loadEnvConfigLines : List (List Char) → List (List Char × List Char) →
    List (List Char × List Char)
  | [], cfg => cfg
  | line :: rest, cfg =>
    match parseEnvLine line with
    | none => loadEnvConfigLines rest cfg
    | some (k, v) => loadEnvConfigLines rest (setEnv cfg k v)

/-- Models loadEnvConfig (part_000 lines 79-112): parses env-format
content into the flat mapping of its key/value lines. -/
def loadEnvConfig (data : List Char) : List (List Char × List Char) :=
  loadEnvConfigLines (splitLines data) []

/-- Result of reading a source file: absent (os.IsNotExist), existing but
unreadable, or its raw content. -/
inductive FileState where
  | absent
  | unreadable
  | content (data : List Char)
deriving DecidableEq

/-- Pipeline errors: the file exists but cannot be read, or the structured
content fails to parse. -/
inductive LoadError where
  | sourceUnavailable (path : List Char)
  | malformedSource (path : List Char)
deriving DecidableEq

/-- External collaborators of the core: the filesystem and the JSON/YAML
syntax parsers (encoding/json and gopkg.in/yaml.v3), which turn raw bytes
into a top-level mapping of the generic value tree or fail. -/
structure World where
  fs : List Char → FileState
  jsonParse : List Char → Except Unit (List (List Char × Node))
  yamlParse : List Char → Except Unit (List (List Char × Node))

/-- Models loadConfigFile (part_000 lines 36-58): an absent file yields an
empty mapping successfully, an unreadable file is an error, and otherwise
the content is dispatched on the detected format; JSON/YAML content is
parsed and flattened, env content is parsed by the env line parser. -/
def loadConfigFile (w : World) (path : List Char) :
    Except LoadError (List (List Char × List Char)) :=
  match w.fs path with
  | FileState.absent => Except.ok []
  | FileState.unreadable => Except.error (LoadError.sourceUnavailable path)
  | FileState.content data =>
    match detectFormat path with
    | ConfigFormat.FormatJSON =>
      match w.jsonParse data with
      | Except.error _ => Except.error (LoadError.malformedSource path)
      | Except.ok tree => Except.ok (flattenConfig tree [])
    | ConfigFormat.FormatYAML =>
      match w.yamlParse data with
      | Except.error _ => Except.error (LoadError.malformedSource path)
      | Except.ok tree => Except.ok (flattenConfig tree [])
    | ConfigFormat.FormatEnv => Except.ok (loadEnvConfig data)

/-- Per-instance configuration handle (env.go lines 11-16). -/
structure Config where
  configFile : List Char
  loaded : Bool
  format : ConfigFormat
  loadedConfig : List (List Char × List Char)
deriving DecidableEq

/-- Scanner loop of the loadEnvFile method (env.go lines 170-200): every
parsed key/value pair is recorded in the config mapping and written to the
store with os.Setenv in the same pass. -/
def loadEnvLines : List (List Char) → List (List Char × List Char) → Store →
    List (List Char × List Char) × Store
  | [], cfg, st => (cfg, st)
  | line :: rest, cfg, st =>
    match parseEnvLine line with
    | none => loadEnvLines rest cfg st
    | some (k, v) => loadEnvLines rest (setEnv cfg k v) (setEnv st k v)

/-- Models the loadEnvFile method (env.go lines 157-205): an absent file
succeeds leaving store and recorded mapping untouched, an unreadable file
is an error, and otherwise every parsed line is recorded and written to
the store, after which the recorded mapping replaces loadedConfig. -/
def Config.loadEnvFile (c : Config) (w : World) (st : Store) :
    Except LoadError (Config × Store) :=
  match w.fs c.configFile with
  | FileState.absent => Except.ok (c, st)
  | FileState.unreadable => Except.error (LoadError.sourceUnavailable c.configFile)
  | FileState.content data =>
    let r := loadEnvLines (splitLines data) [] st
    Except.ok ({ c with loadedConfig := r.1 }, r.2)

/-- Models the loadStructuredFile method (env.go lines 142-154): loads and
flattens the structured file, records the flat mapping in loadedConfig,
and writes it to the store with setEnvironmentVariables. -/
def Config.loadStructuredFile (c : Config) (w : World) (st : Store) :
    Except LoadError (Config × Store) :=
  match loadConfigFile w c.configFile with
  | Except.error e => Except.error e
  | Except.ok flat =>
    Except.ok ({ c with loadedConfig := flat }, setEnvironmentVariables flat st)

/-- Models the Load method (env.go lines 41-60): a no-op when already
loaded, otherwise dispatches on the handle's format and marks the handle
loaded exactly when the underlying loader succeeds. -/
def Config.Load (c : Config) (w : World) (st : Store) :
    Except LoadError (Config × Store) :=
  if c.loaded then Except.ok (c, st)
  else
    match c.format with
    | ConfigFormat.FormatEnv =>
      (c.loadEnvFile w st).map fun r => ({ r.1 with loaded := true }, r.2)
    | _ =>
      (c.loadStructuredFile w st).map fun r => ({ r.1 with loaded := true }, r.2)

/-- Models the Reload method (env.go lines 116-125): when the previously
recorded mapping is non-empty, its transformed keys are removed from the
store and the recording is emptied; then the handle is marked unloaded and
Load runs again. -/
def Config.Reload (c : Config) (w : World) (st : Store) :
    Except LoadError (Config × Store) :=
  let p :=
    if 0 < c.loadedConfig.length then
      ({ c with loadedConfig := [] }, clearEnvironmentVariables c.loadedConfig st)
    else (c, st)
  Config.Load { p.1 with loaded := false } w p.2

/-- Models the SetFile method (env.go lines 128-139): the same clearing
step as Reload, then the path and re-detected format are installed and
Load runs again. -/
def Config.SetFile (c : Config) (w : World) (newFile : List Char) (st : Store) :
    Except LoadError (Config × Store) :=
  let p :=
    if 0 < c.loadedConfig.length then
      ({ c with loadedConfig := [] }, clearEnvironmentVariables c.loadedConfig st)
    else (c, st)
  Config.Load { p.1 with configFile := newFile, format := detectFormat newFile,
                         loaded := false } w p.2

/-- Digit loop of strconv.Atoi: accumulates decimal digits, failing on any
non-digit character. -/
def parseDigitsAux : List Char → Nat → Option Nat
  | [], acc => some acc
  | c :: rest, acc =>
    if c.isDigit then parseDigitsAux rest (acc * 10 + (c.toNat - 48)) else none

/-- Models strconv.Atoi: an optional sign followed by at least one decimal
digit, within the 64-bit signed range; anything else is an error
(none). -/
def atoi (v : List Char) : Option Int :=
  let sd : Bool × List Char :=
    match v with
    | '+' :: rest => (false, rest)
    | '-' :: rest => (true, rest)
    | _ => (false, v)
  match sd.2 with
  | [] => none
  | _ =>
    match parseDigitsAux sd.2 0 with
    | none => none
    | some n =>
      let i : Int := if sd.1 then -(n : Int) else (n : Int)
      if -(2 ^ 63) ≤ i ∧ i < 2 ^ 63 then some i else none

/-- Models the Str getter (env.go lines 70-78 and 298-306): a non-empty
store value is returned; otherwise the first supplied default, or the
empty string. -/
def getStr (st : Store) (k : List Char) (ds : List (List Char)) : List Char :=
  let v := osGetenv st k
  if v ≠ [] then v else ds.headD []

/-- Models the Int getter (env.go lines 81-91 and 309-319): a non-empty
store value that Atoi accepts is returned; otherwise the first supplied
default, or zero. -/
def getInt (st : Store) (k : List Char) (ds : List Int) : Int :=
  let v := osGetenv st k
  if v ≠ [] then
    match atoi v with
    | some n => n
    | none => ds.headD 0
  else ds.headD 0

/-- Models the Bool getter (env.go lines 94-108 and 322-336): a non-empty
store value is trimmed and lower-cased and matched against the recognised
true/false spellings; otherwise (or on no match) the first supplied
default, or false. -/
def getBool (st : Store) (k : List Char) (ds : List Bool) : Bool :=
  let v := osGetenv st k
  if v ≠ [] then
    let lv := toLowerL (trimSpace v)
    if lv = chars "true" ∨ lv = chars "1" ∨ lv = chars "yes" ∨ lv = chars "on" then true
    else if lv = chars "false" ∨ lv = chars "0" ∨ lv = chars "no" ∨ lv = chars "off" then false
    else ds.headD false
  else ds.headD false

/-- Decidable equality for results of the fallible operations, used to
evaluate the pipeline at concrete inputs. -/
instance {ε α : Type} [DecidableEq ε] [DecidableEq α] : DecidableEq (Except ε α) := fun a b =>
  match a, b with
  | Except.ok x, Except.ok y => decidable_of_iff (x = y) (by simp)
  | Except.error x, Except.error y => decidable_of_iff (x = y) (by simp)
  | Except.ok _, Except.error _ => isFalse (fun hc => by cases hc)
  | Except.error _, Except.ok _ => isFalse (fun hc => by cases hc)

theorem lookup_setEnv (st : Store) (k v q : List Char) :
    lookupStore (setEnv st k v) q = if k = q then some v else lookupStore st q := by
  induction st with
  | nil => by_cases h : k = q <;> simp [setEnv, lookupStore, h]
  | cons p rest ih =>
    obtain ⟨k2, v2⟩ := p
    by_cases hA : k2 = k <;> by_cases hB : k2 = q
    · subst hA; subst hB; simp [setEnv, lookupStore]
    · subst hA
      simp [setEnv, lookupStore, hB]
    · subst hB
      have hk : ¬ k = k2 := fun hc => hA hc.symm
      simp [setEnv, lookupStore, hA, hk]
    · simp [setEnv, lookupStore, hA, hB, ih]

theorem lookup_unsetEnv (st : Store) (k q : List Char) :
    lookupStore (unsetEnv st k) q = if k = q then none else lookupStore st q := by
  induction st with
  | nil => by_cases h : k = q <;> simp [unsetEnv, lookupStore, h]
  | cons p rest ih =>
    obtain ⟨k2, v2⟩ := p
    by_cases hA : k2 = k <;> by_cases hB : k2 = q
    · subst hA; subst hB; simp [unsetEnv, lookupStore, ih]
    · subst hA
      simp [unsetEnv, lookupStore, hB, ih]
    · subst hB
      have hk : ¬ k = k2 := fun hc => hA hc.symm
      simp [unsetEnv, lookupStore, hA, hk]
    · simp [unsetEnv, lookupStore, hA, hB, ih]

theorem loadEnvLines_writes (lines : List (List Char)) :
    ∀ (cfg : List (List Char × List Char)) (st : Store) (k v : List Char),
      (lookupStore cfg k = some v → lookupStore st k = some v) →
      lookupStore (loadEnvLines lines cfg st).1 k = some v →
      lookupStore (loadEnvLines lines cfg st).2 k = some v := by
  induction lines with
  | nil => intro cfg st k v hpre hk; exact hpre hk
  | cons line rest ih =>
    intro cfg st k v hpre hk
    match hp : parseEnvLine line with
    | none =>
      rw [loadEnvLines, hp] at hk ⊢
      exact ih cfg st k v hpre hk
    | some (pk, pv) =>
      rw [loadEnvLines, hp] at hk ⊢
      refine ih _ _ k v ?_ hk
      intro hck
      rw [lookup_setEnv] at hck ⊢
      by_cases hpk : pk = k
      · simpa [hpk] using hck
      · simp only [if_neg hpk] at hck ⊢
        exact hpre hck

theorem setEnvVars_untouched (cfg : List (List Char × List Char)) :
    ∀ (st : Store) (q : List Char),
      (∀ p ∈ cfg, envKey p.1 ≠ q) →
      lookupStore (setEnvironmentVariables cfg st) q = lookupStore st q := by
  induction cfg with
  | nil => intro st q _; rfl
  | cons p rest ih =>
    intro st q hq
    obtain ⟨k0, v0⟩ := p
    rw [setEnvironmentVariables, ih _ q (fun p hp => hq p (List.mem_cons_of_mem _ hp)),
        lookup_setEnv, if_neg (hq (k0, v0) (List.mem_cons_self _ _))]

theorem setEnvVars_writes (cfg : List (List Char × List Char)) :
    ∀ (st : Store) (k v : List Char),
      (cfg.map fun p => envKey p.1).Nodup →
      lookupStore cfg k = some v →
      lookupStore (setEnvironmentVariables cfg st) (envKey k) = some v := by
  induction cfg with
  | nil => intro st k v _ hk; cases hk
  | cons p rest ih =>
    intro st k v hnd hk
    obtain ⟨k0, v0⟩ := p
    rw [List.map_cons, List.nodup_cons] at hnd
    by_cases hk0 : k0 = k
    · subst hk0
      rw [lookupStore, if_pos rfl] at hk
      obtain rfl : v0 = v := by injection hk
      have hclean : ∀ p ∈ rest, envKey p.1 ≠ envKey k0 := by
        intro p hp hc
        apply hnd.1
        rw [← hc]
        exact List.mem_map_of_mem _ hp
      rw [setEnvironmentVariables, setEnvVars_untouched rest _ _ hclean,
          lookup_setEnv, if_pos rfl]
    · rw [lookupStore, if_neg hk0] at hk
      exact ih _ k v hnd.2 hk

theorem Load_env_content (w : World) (c : Config) (st : Store) (data : List Char)
    (hl : c.loaded = false) (hf : c.format = ConfigFormat.FormatEnv)
    (hfs : w.fs c.configFile = FileState.content data) :
    Config.Load c w st = Except.ok
      ({ c with loaded := true, loadedConfig := (loadEnvLines (splitLines data) [] st).1 },
       (loadEnvLines (splitLines data) [] st).2) := by
  rw [Config.Load, hl, hf]
  simp only [Bool.false_eq_true, if_false]
  rw [Config.loadEnvFile, hfs]
  simp [Except.map, hf]

theorem Load_env_absent (w : World) (c : Config) (st : Store)
    (hl : c.loaded = false) (hf : c.format = ConfigFormat.FormatEnv)
    (hfs : w.fs c.configFile = FileState.absent) :
    Config.Load c w st = Except.ok ({ c with loaded := true }, st) := by
  rw [Config.Load, hl, hf]
  simp only [Bool.false_eq_true, if_false]
  rw [Config.loadEnvFile, hfs]
  simp [Except.map, hf]

theorem Load_env_unreadable (w : World) (c : Config) (st : Store)
    (hl : c.loaded = false) (hf : c.format = ConfigFormat.FormatEnv)
    (hfs : w.fs c.configFile = FileState.unreadable) :
    Config.Load c w st = Except.error (LoadError.sourceUnavailable c.configFile) := by
  rw [Config.Load, hl, hf]
  simp only [Bool.false_eq_true, if_false]
  rw [Config.loadEnvFile, hfs]
  simp [Except.map, hf]

theorem Load_structured (w : World) (c : Config) (st : Store)
    (flat : List (List Char × List Char)) (hl : c.loaded = false)
    (hf : c.format = ConfigFormat.FormatJSON ∨ c.format = ConfigFormat.FormatYAML)
    (hcf : loadConfigFile w c.configFile = Except.ok flat) :
    Config.Load c w st = Except.ok
      ({ c with loaded := true, loadedConfig := flat }, setEnvironmentVariables flat st) := by
  rw [Config.Load, hl]
  simp only [Bool.false_eq_true, if_false]
  rcases hf with hf | hf <;>
    · rw [hf]
      show Except.map _ (Config.loadStructuredFile c w st) = _
      rw [Config.loadStructuredFile, hcf]
      simp [Except.map, hf]

theorem Load_structured_error (w : World) (c : Config) (st : Store) (e : LoadError)
    (hl : c.loaded = false)
    (hf : c.format = ConfigFormat.FormatJSON ∨ c.format = ConfigFormat.FormatYAML)
    (hcf : loadConfigFile w c.configFile = Except.error e) :
    Config.Load c w st = Except.error e := by
  rw [Config.Load, hl]
  simp only [Bool.false_eq_true, if_false]
  rcases hf with hf | hf <;>
    · rw [hf]
      show Except.map _ (Config.loadStructuredFile c w st) = _
      rw [Config.loadStructuredFile, hcf]
      simp [Except.map, hf]

theorem load_env_fresh_writes (w : World) (c : Config) (st : Store)
    (c2 : Config) (st2 : Store) (k v : List Char)
    (hl : c.loaded = false) (hf : c.format = ConfigFormat.FormatEnv)
    (he : c.loadedConfig = [])
    (hok : Config.Load c w st = Except.ok (c2, st2))
    (hk : lookupStore c2.loadedConfig k = some v) :
    lookupStore st2 k = some v := by
  cases hfs : w.fs c.configFile with
  | absent =>
    rw [Load_env_absent w c st hl hf hfs] at hok
    simp only [Except.ok.injEq, Prod.mk.injEq] at hok
    obtain ⟨rfl, rfl⟩ := hok
    simp only [he, lookupStore] at hk
    cases hk
  | unreadable =>
    rw [Load_env_unreadable w c st hl hf hfs] at hok
    cases hok
  | content data =>
    rw [Load_env_content w c st data hl hf hfs] at hok
    simp only [Except.ok.injEq, Prod.mk.injEq] at hok
    obtain ⟨rfl, rfl⟩ := hok
    refine loadEnvLines_writes (splitLines data) [] st k v ?_ hk
    intro hcontra
    simp [lookupStore] at hcontra

/-- Scenario for claim C1: an env-format handle over a file defining
KEY=fromfile, loaded into a store that already binds KEY. -/
def c1World : World :=
  { fs := fun p => if p = chars "test.env" then FileState.content (chars "KEY=fromfile")
                   else FileState.absent
    jsonParse := fun _ => Except.error ()
    yamlParse := fun _ => Except.error () }

/-- Fresh env-format handle of the C1 scenario. -/
def c1Handle : Config :=
  { configFile := chars "test.env", loaded := false,
    format := ConfigFormat.FormatEnv, loadedConfig := [] }

/-- C1 counterexample: the claim says an env-format Load leaves a
pre-existing store binding of KEY unchanged (first-definition-wins); on the
code, loading an env source defining KEY=fromfile over a store binding
KEY=preexisting succeeds and the store value for KEY becomes fromfile,
which differs from preexisting. -/
theorem C1_env_load_counterexample :
    (Config.Load c1Handle c1World [(chars "KEY", chars "preexisting")]).map
        (fun r => lookupStore r.2 (chars "KEY"))
      = Except.ok (some (chars "fromfile"))
    ∧ chars "fromfile" ≠ chars "preexisting" := by
  constructor
  · decide
  · decide

/-- C1 (amended): after Load() of an env-format source from a readable
file, every key/value pair the load records is written to the ambient
store unconditionally — the store value for a key defined by the env
source is the file's value, overwriting any pre-existing binding (the same
always-set policy as structured loads; the set-only-if-absent behaviour
was removed, as the changelog documents). -/
theorem C1_env_load_overwrites (w : World) (c : Config) (st : Store)
    (data : List Char) (c2 : Config) (st2 : Store) (k v : List Char)
    (hl : c.loaded = false) (hf : c.format = ConfigFormat.FormatEnv)
    (hfs : w.fs c.configFile = FileState.content data)
    (hok : Config.Load c w st = Except.ok (c2, st2))
    (hk : lookupStore c2.loadedConfig k = some v) :
    lookupStore st2 k = some v := by
  rw [Load_env_content w c st data hl hf hfs] at hok
  simp only [Except.ok.injEq, Prod.mk.injEq] at hok
  obtain ⟨rfl, rfl⟩ := hok
  refine loadEnvLines_writes (splitLines data) [] st k v ?_ hk
  intro hcontra
  simp [lookupStore] at hcontra

/-- Witness for C1 (amended) at the concrete C1 scenario. -/
theorem C1_env_load_overwrites_witness :
    lookupStore [(chars "KEY", chars "fromfile")] (chars "KEY") = some (chars "fromfile") :=
  C1_env_load_overwrites c1World c1Handle [(chars "KEY", chars "preexisting")]
    (chars "KEY=fromfile")
    { configFile := chars "test.env", loaded := true, format := ConfigFormat.FormatEnv,
      loadedConfig := [(chars "KEY", chars "fromfile")] }
    [(chars "KEY", chars "fromfile")]
    (chars "KEY") (chars "fromfile")
    rfl rfl (by decide) (by decide) (by decide)

/-- Scenario for claim C2: the source file has become empty. -/
def c2World : World :=
  { fs := fun _ => FileState.content []
    jsonParse := fun _ => Except.error ()
    yamlParse := fun _ => Except.error () }

/-- Handle of the C2 scenario: a loaded env-format handle whose previous
load recorded (and wrote to the store) the lower-case key foo. -/
def c2Handle : Config :=
  { configFile := chars "app.env", loaded := true,
    format := ConfigFormat.FormatEnv, loadedConfig := [(chars "foo", chars "bar")] }

/-- C2 at the failing input: an env-format handle previously loaded
foo=bar (the load wrote store key foo and recorded foo in loadedConfig);
the source is now empty, yet after a successful Reload — whose clearing
step unsets only the transformed key FOO — the recorded mapping is empty
while the store still binds foo to bar: the key the previous load wrote
was not removed. -/
theorem C2_reload_residue :
    (Config.Reload c2Handle c2World [(chars "foo", chars "bar")]).map
        (fun r => (r.1.loadedConfig, lookupStore r.2 (chars "foo")))
      = Except.ok ([], some (chars "bar")) := by
  decide

/-- C3: structured loads and every reload path write each produced
key/value pair to the ambient store unconditionally, overwriting any
pre-existing binding: (1) setEnvironmentVariables — the writer invoked by
every JSON/YAML load and every structured reload — makes the store bind
the transformed key of every recorded pair to its value, for any prior
store contents; (2) a successful JSON/YAML-format Load leaves the store
exactly setEnvironmentVariables of the produced flat mapping; (3) a
successful Reload of an env-format handle makes the store bind every key
recorded by the fresh load to its new value, for any prior store
contents. -/
theorem C3_always_overwrite :
    (∀ (cfg : List (List Char × List Char)) (st : Store) (k v : List Char),
        (cfg.map fun p => envKey p.1).Nodup →
        lookupStore cfg k = some v →
        lookupStore (setEnvironmentVariables cfg st) (envKey k) = some v)
    ∧ (∀ (w : World) (c : Config) (st : Store) (c2 : Config) (st2 : Store),
        c.loaded = false →
        (c.format = ConfigFormat.FormatJSON ∨ c.format = ConfigFormat.FormatYAML) →
        Config.Load c w st = Except.ok (c2, st2) →
        st2 = setEnvironmentVariables c2.loadedConfig st)
    ∧ (∀ (w : World) (c : Config) (st : Store) (c2 : Config) (st2 : Store) (k v : List Char),
        Config.Reload c w st = Except.ok (c2, st2) →
        c.format = ConfigFormat.FormatEnv →
        lookupStore c2.loadedConfig k = some v →
        lookupStore st2 k = some v) := by
  refine ⟨fun cfg st k v => setEnvVars_writes cfg st k v, ?_, ?_⟩
  · intro w c st c2 st2 hl hf hok
    cases hcf : loadConfigFile w c.configFile with
    | error e =>
      rw [Load_structured_error w c st e hl hf hcf] at hok
      cases hok
    | ok flat =>
      rw [Load_structured w c st flat hl hf hcf] at hok
      simp only [Except.ok.injEq, Prod.mk.injEq] at hok
      obtain ⟨rfl, rfl⟩ := hok
      rfl
  · intro w c st c2 st2 k v hok hf hk
    simp only [Config.Reload] at hok
    by_cases hc : 0 < c.loadedConfig.length
    · rw [if_pos hc] at hok
      exact load_env_fresh_writes w ⟨c.configFile, false, c.format, []⟩
        (clearEnvironmentVariables c.loadedConfig st) c2 st2 k v rfl (by simp [hf]) rfl hok hk
    · rw [if_neg hc] at hok
      have he : c.loadedConfig = [] := by
        cases hle : c.loadedConfig with
        | nil => rfl
        | cons a rest => rw [hle] at hc; simp at hc
      exact load_env_fresh_writes w ⟨c.configFile, false, c.format, c.loadedConfig⟩
        st c2 st2 k v rfl (by simp [hf]) he hok hk

/-- Scenario for the C3 witness, part 2: a JSON handle over an absent
file. -/
def c3World : World :=
  { fs := fun _ => FileState.absent
    jsonParse := fun _ => Except.error ()
    yamlParse := fun _ => Except.error () }

/-- JSON-format handle of the C3 witness scenario. -/
def c3Handle : Config :=
  { configFile := chars "a.json", loaded := false,
    format := ConfigFormat.FormatJSON, loadedConfig := [] }

/-- Scenario for the C3 witness, part 3: an env source now defining
K=2. -/
def c3bWorld : World :=
  { fs := fun _ => FileState.content (chars "K=2")
    jsonParse := fun _ => Except.error ()
    yamlParse := fun _ => Except.error () }

/-- Loaded env-format handle of the C3 witness scenario, part 3. -/
def c3bHandle : Config :=
  { configFile := chars "r.env", loaded := true,
    format := ConfigFormat.FormatEnv, loadedConfig := [] }

/-- Witness for C3 at concrete inputs: one instance per conjunct. -/
theorem C3_always_overwrite_witness :
    (lookupStore (setEnvironmentVariables [(chars "a", chars "1")] [])
        (envKey (chars "a")) = some (chars "1"))
    ∧ (([] : Store) = setEnvironmentVariables ([] : List (List Char × List Char)) [])
    ∧ (lookupStore [(chars "K", chars "2")] (chars "K") = some (chars "2")) :=
  ⟨C3_always_overwrite.1 [(chars "a", chars "1")] [] (chars "a") (chars "1")
      (by decide) (by decide),
   C3_always_overwrite.2.1 c3World c3Handle []
      { c3Handle with loaded := true, loadedConfig := [] } [] rfl (Or.inl rfl) (by decide),
   C3_always_overwrite.2.2 c3bWorld c3bHandle [(chars "K", chars "1")]
      { c3bHandle with loaded := true, loadedConfig := [(chars "K", chars "2")] }
      [(chars "K", chars "2")] (chars "K") (chars "2") (by decide) rfl (by decide)⟩

/-- Scenario for the C4 witness: every file is absent. -/
def c4World : World :=
  { fs := fun _ => FileState.absent
    jsonParse := fun _ => Except.error ()
    yamlParse := fun _ => Except.error () }

/-- JSON-format handle of the C4 witness scenario. -/
def c4Handle : Config :=
  { configFile := chars "a.json", loaded := false,
    format := ConfigFormat.FormatJSON, loadedConfig := [] }

/-- Scenario for the C4 witness: every file exists but is unreadable. -/
def c4bWorld : World :=
  { fs := fun _ => FileState.unreadable
    jsonParse := fun _ => Except.error ()
    yamlParse := fun _ => Except.error () }

/-- Env-format handle of the C4 witness scenario over an unreadable
file. -/
def c4bHandle : Config :=
  { configFile := chars "c.env", loaded := false,
    format := ConfigFormat.FormatEnv, loadedConfig := [] }

/-- C4: loading a source whose file does not exist succeeds for every
format with an empty flat mapping and no error — both through the generic
loader (any path, hence any detected format) and through a handle's Load,
which then leaves the store untouched — while a file that exists but
cannot be read is an error for every format. -/
theorem C4_absence_is_success :
    (∀ (w : World) (path : List Char), w.fs path = FileState.absent →
        loadConfigFile w path = Except.ok [])
    ∧ (∀ (w : World) (c : Config) (st : Store), c.loaded = false →
        w.fs c.configFile = FileState.absent →
        ∃ c2, Config.Load c w st = Except.ok (c2, st))
    ∧ (∀ (w : World) (path : List Char), w.fs path = FileState.unreadable →
        loadConfigFile w path = Except.error (LoadError.sourceUnavailable path))
    ∧ (∀ (w : World) (c : Config) (st : Store), c.loaded = false →
        w.fs c.configFile = FileState.unreadable →
        Config.Load c w st = Except.error (LoadError.sourceUnavailable c.configFile)) := by
  refine ⟨?_, ?_, ?_, ?_⟩
  · intro w path h
    rw [loadConfigFile, h]
  · intro w c st hl hfs
    cases hfmt : c.format with
    | FormatEnv => exact ⟨_, Load_env_absent w c st hl hfmt hfs⟩
    | FormatJSON =>
      have hcf : loadConfigFile w c.configFile = Except.ok [] := by
        rw [loadConfigFile, hfs]
      exact ⟨_, Load_structured w c st [] hl (Or.inl hfmt) hcf⟩
    | FormatYAML =>
      have hcf : loadConfigFile w c.configFile = Except.ok [] := by
        rw [loadConfigFile, hfs]
      exact ⟨_, Load_structured w c st [] hl (Or.inr hfmt) hcf⟩
  · intro w path h
    rw [loadConfigFile, h]
  · intro w c st hl hfs
    cases hfmt : c.format with
    | FormatEnv => exact Load_env_unreadable w c st hl hfmt hfs
    | FormatJSON =>
      exact Load_structured_error w c st _ hl (Or.inl hfmt) (by rw [loadConfigFile, hfs])
    | FormatYAML =>
      exact Load_structured_error w c st _ hl (Or.inr hfmt) (by rw [loadConfigFile, hfs])

/-- Witness for C4 at concrete inputs: one instance per conjunct. -/
theorem C4_absence_is_success_witness :
    (loadConfigFile c4World (chars "a.json") = Except.ok [])
    ∧ (∃ c2, Config.Load c4Handle c4World [] = Except.ok (c2, []))
    ∧ (loadConfigFile c4bWorld (chars "b.yaml")
        = Except.error (LoadError.sourceUnavailable (chars "b.yaml")))
    ∧ (Config.Load c4bHandle c4bWorld []
        = Except.error (LoadError.sourceUnavailable (chars "c.env"))) :=
  ⟨C4_absence_is_success.1 c4World (chars "a.json") rfl,
   C4_absence_is_success.2.1 c4World c4Handle [] rfl rfl,
   C4_absence_is_success.2.2.1 c4bWorld (chars "b.yaml") rfl,
   C4_absence_is_success.2.2.2 c4bWorld c4bHandle [] rfl rfl⟩

/-- C5: flattening the nested mapping corresponding to the JSON input
with a at top level, b below it and c = 1 below that yields exactly the
dot-joined flat entry a.b.c = "1", and writing it through the final
store-key transformation yields exactly the single store binding
A_B_C = "1". -/
theorem C5_roundtrip_flatten :
    flattenConfig
        [(chars "a", Node.mapn [(chars "b", Node.mapn [(chars "c", Node.num 1)])])] []
      = [(chars "a.b.c", chars "1")]
    ∧ setEnvironmentVariables
        (flattenConfig
          [(chars "a", Node.mapn [(chars "b", Node.mapn [(chars "c", Node.num 1)])])] []) []
      = [(chars "A_B_C", chars "1")] := by
  constructor
  · simp only [flattenConfig, goStringify]
    decide
  · simp only [flattenConfig, goStringify, setEnvironmentVariables]
    decide

/-- C6: a Sequence node flattens to exactly one entry at its qualified
key, whose value is the comma-join of the elements' default
stringifications (an empty sequence giving the empty string); concretely,
the list x, y, z at key list flattens to the single store binding
LIST = "x,y,z", and the empty list to LIST = "". -/
theorem C6_sequence_flatten :
    (∀ (k pfx : List Char) (xs : List Node),
        flattenConfig [(k, Node.seq xs)] pfx =
          [(if pfx = [] then k else pfx ++ '.' :: k,
            joinSep [','] (xs.map goStringify))])
    ∧ flattenConfig
        [(chars "list", Node.seq [Node.str (chars "x"), Node.str (chars "y"),
                                  Node.str (chars "z")])] []
      = [(chars "list", chars "x,y,z")]
    ∧ setEnvironmentVariables
        (flattenConfig
          [(chars "list", Node.seq [Node.str (chars "x"), Node.str (chars "y"),
                                    Node.str (chars "z")])] []) []
      = [(chars "LIST", chars "x,y,z")]
    ∧ setEnvironmentVariables (flattenConfig [(chars "list", Node.seq [])] []) []
      = [(chars "LIST", [])] := by
  refine ⟨?_, ?_, ?_, ?_⟩
  · intro k pfx xs
    simp [flattenConfig]
  · simp only [flattenConfig, goStringify, joinSep]
    decide
  · simp only [flattenConfig, goStringify, joinSep, setEnvironmentVariables]
    decide
  · simp only [flattenConfig, goStringify, joinSep, setEnvironmentVariables]
    decide

/-- C7: in env-format parsing, a trimmed value of length at least 2 whose
first and last characters are the same quote character (both double or
both single quotes) has exactly that surrounding pair stripped, while a
value whose first and last characters differ — such as a double-quoted
opening with a single-quoted closing — is kept literally unchanged;
concretely, the lines NAME="value" and NAME='value' both parse to the
value value, and the mismatched NAME="value' parses to the literal
"value'. -/
theorem C7_quote_stripping :
    (∀ (v : List Char) (q : Char), 2 ≤ v.length →
        (q = quoteD ∨ q = quoteS) → v.head? = some q → v.getLast? = some q →
        stripQuotes v = (v.drop 1).dropLast)
    ∧ (∀ (v : List Char) (a b : Char), v.head? = some a → v.getLast? = some b →
        a ≠ b → stripQuotes v = v)
    ∧ parseEnvLine (chars "NAME=" ++ quoteD :: chars "value" ++ [quoteD])
      = some (chars "NAME", chars "value")
    ∧ parseEnvLine (chars "NAME=" ++ quoteS :: chars "value" ++ [quoteS])
      = some (chars "NAME", chars "value")
    ∧ parseEnvLine (chars "NAME=" ++ quoteD :: chars "value" ++ [quoteS])
      = some (chars "NAME", quoteD :: chars "value" ++ [quoteS]) := by
  refine ⟨?_, ?_, by decide, by decide, by decide⟩
  · intro v q hlen hq hh hl
    rw [stripQuotes, if_pos]
    refine ⟨hlen, ?_⟩
    rcases hq with rfl | rfl
    · exact Or.inl ⟨hh, hl⟩
    · exact Or.inr ⟨hh, hl⟩
  · intro v a b hh hl hab
    rw [stripQuotes, if_neg]
    rintro ⟨hlen, ⟨h1, h2⟩ | ⟨h1, h2⟩⟩
    · rw [hh] at h1
      rw [hl] at h2
      injection h1 with h1
      injection h2 with h2
      exact hab (h1.trans h2.symm)
    · rw [hh] at h1
      rw [hl] at h2
      injection h1 with h1
      injection h2 with h2
      exact hab (h1.trans h2.symm)

/-- Witness for C7 at concrete inputs: a double-quoted value is stripped
and a mismatched-quote value is kept. -/
theorem C7_quote_stripping_witness :
    stripQuotes (quoteD :: chars "value" ++ [quoteD])
      = (((quoteD :: chars "value" ++ [quoteD]).drop 1).dropLast)
    ∧ stripQuotes (quoteD :: chars "value" ++ [quoteS])
      = quoteD :: chars "value" ++ [quoteS] :=
  ⟨C7_quote_stripping.1 (quoteD :: chars "value" ++ [quoteD]) quoteD
      (by decide) (Or.inl rfl) (by decide) (by decide),
   C7_quote_stripping.2.1 (quoteD :: chars "value" ++ [quoteS]) quoteD quoteS
      (by decide) (by decide) (by decide)⟩

theorem char_toNat_ofNat_valid (n : Nat) (h : n.isValidChar) : (Char.ofNat n).toNat = n := by
  unfold Char.ofNat
  rw [dif_pos h]
  rfl

theorem asciiToLower_fix (c t : Char) (ht : t.toNat < 97 ∨ 122 < t.toNat)
    (h : asciiToLower c = t) : c = t := by
  rw [asciiToLower] at h
  split_ifs at h with hc
  · exfalso
    have h2 := congrArg Char.toNat h
    rw [char_toNat_ofNat_valid _ (by left; omega)] at h2
    omega
  · exact h

theorem extAux_through (mid : List Char) :
    ∀ (acc rest : List Char), (∀ c ∈ mid, c ≠ '.' ∧ c ≠ '/') →
      extAux (mid ++ '.' :: rest) acc = '.' :: (mid.reverse ++ acc) := by
  induction mid with
  | nil => intro acc rest _; simp [extAux]
  | cons c mid2 ih =>
    intro acc rest hm
    have hc := hm c (List.mem_cons_self _ _)
    rw [List.cons_append]
    simp only [extAux]
    rw [if_neg hc.1, if_neg hc.2,
        ih _ rest (fun x hx => hm x (List.mem_cons_of_mem _ hx))]
    simp

theorem extAux_shape (rev : List Char) :
    ∀ acc, extAux rev acc = [] ∨
      ∃ n, n ≤ rev.length ∧ extAux rev acc = (rev.take n).reverse ++ acc := by
  induction rev with
  | nil => intro acc; left; rfl
  | cons c rest ih =>
    intro acc
    by_cases hdot : c = '.'
    · subst hdot
      right
      refine ⟨1, by simp, ?_⟩
      simp [extAux]
    · by_cases hslash : c = '/'
      · subst hslash
        left
        simp [extAux, hdot]
      · rcases ih (c :: acc) with h | ⟨n, hn, heq⟩
        · left
          simp only [extAux]
          rw [if_neg hdot, if_neg hslash]
          exact h
        · right
          refine ⟨n + 1, by simp; omega, ?_⟩
          simp only [extAux]
          rw [if_neg hdot, if_neg hslash, heq, List.take_succ_cons]
          simp

theorem extOf_isSuffix (p : List Char) : (extOf p).IsSuffix p := by
  rcases extAux_shape p.reverse [] with h | ⟨n, hn, heq⟩
  · rw [extOf, h]
    exact List.nil_suffix
  · rw [extOf, heq, List.append_nil]
    refine ⟨(p.reverse.drop n).reverse, ?_⟩
    rw [← List.reverse_append, List.take_append_drop, List.reverse_reverse]

theorem detectFormat_json_char (p : List Char) :
    detectFormat p = ConfigFormat.FormatJSON ↔ toLowerL (extOf p) = chars ".json" := by
  constructor
  · intro h
    simp only [detectFormat] at h
    split_ifs at h with h1 h2
    · exact h1
  · intro h
    simp [detectFormat, h]

theorem detectFormat_yaml_char (p : List Char) :
    detectFormat p = ConfigFormat.FormatYAML ↔
      (toLowerL (extOf p) = chars ".yml" ∨ toLowerL (extOf p) = chars ".yaml") := by
  constructor
  · intro h
    simp only [detectFormat] at h
    split_ifs at h with h1 h2
    · exact h2
  · rintro (h | h) <;> (simp only [detectFormat, h]; decide)

theorem lower_ext_of_suffix (p sfx : List Char)
    (hs : sfx.IsSuffix (toLowerL p))
    (hhead : sfx.head? = some '.')
    (htail : ∀ c ∈ sfx.tail, c ≠ '.' ∧ c ≠ '/') :
    toLowerL (extOf p) = sfx := by
  obtain ⟨t, ht⟩ := hs
  obtain ⟨p1, p2, hp, hp1, hp2⟩ := List.append_eq_map_iff.mp ht
  cases sfx with
  | nil => cases hhead
  | cons s0 stail =>
    have hs0 : s0 = '.' := by
      simp only [List.head?] at hhead
      injection hhead
    subst hs0
    obtain ⟨c1, p2t, rfl, hc1, hp2t⟩ := List.map_eq_cons_iff.mp hp2
    have hc1dot : c1 = '.' := asciiToLower_fix c1 '.' (by left; decide) hc1
    subst hc1dot
    have hclean : ∀ c ∈ p2t, c ≠ '.' ∧ c ≠ '/' := by
      intro c hc
      have hmem : asciiToLower c ∈ stail := by
        rw [← hp2t]
        exact List.mem_map_of_mem _ hc
      constructor
      · rintro rfl
        rw [show asciiToLower '.' = '.' from by decide] at hmem
        exact (htail '.' hmem).1 rfl
      · rintro rfl
        rw [show asciiToLower '/' = '/' from by decide] at hmem
        exact (htail '/' hmem).2 rfl
    subst hp
    rw [extOf, List.reverse_append, List.reverse_cons, List.append_assoc,
        List.singleton_append,
        extAux_through p2t.reverse _ _ (fun c hc => hclean c (List.mem_reverse.mp hc)),
        List.reverse_reverse, List.append_nil]
    simp only [toLowerL, List.map_cons]
    rw [show asciiToLower '.' = '.' from by decide, hp2t]

theorem suffix_json_detect (p : List Char)
    (h : (chars ".json").IsSuffix (toLowerL p)) :
    detectFormat p = ConfigFormat.FormatJSON :=
  (detectFormat_json_char p).mpr (lower_ext_of_suffix p (chars ".json") h (by decide) (by decide))

theorem suffix_yml_detect (p : List Char)
    (h : (chars ".yml").IsSuffix (toLowerL p)) :
    detectFormat p = ConfigFormat.FormatYAML :=
  (detectFormat_yaml_char p).mpr
    (Or.inl (lower_ext_of_suffix p (chars ".yml") h (by decide) (by decide)))

theorem suffix_yaml_detect (p : List Char)
    (h : (chars ".yaml").IsSuffix (toLowerL p)) :
    detectFormat p = ConfigFormat.FormatYAML :=
  (detectFormat_yaml_char p).mpr
    (Or.inr (lower_ext_of_suffix p (chars ".yaml") h (by decide) (by decide)))

/-- C8: detectFormat is total and case-insensitive on the extension:
a path whose lower-casing ends in ".json" maps exactly to the JSON tag, a
path whose lower-casing ends in ".yml" or ".yaml" maps exactly to the
YAML tag, and every other path — one with no extension or an unrecognized
one included — maps to the Env tag. -/
theorem C8_detectFormat_total (path : List Char) :
    (detectFormat path = ConfigFormat.FormatJSON ↔
      (chars ".json").IsSuffix (toLowerL path))
    ∧ (detectFormat path = ConfigFormat.FormatYAML ↔
        ((chars ".yml").IsSuffix (toLowerL path) ∨
         (chars ".yaml").IsSuffix (toLowerL path)))
    ∧ (¬ (chars ".json").IsSuffix (toLowerL path) →
       ¬ (chars ".yml").IsSuffix (toLowerL path) →
       ¬ (chars ".yaml").IsSuffix (toLowerL path) →
       detectFormat path = ConfigFormat.FormatEnv) := by
  have hjson : detectFormat path = ConfigFormat.FormatJSON ↔
      (chars ".json").IsSuffix (toLowerL path) := by
    constructor
    · intro h
      have he := (detectFormat_json_char path).mp h
      have hsfx := (extOf_isSuffix path).map asciiToLower
      rw [show (extOf path).map asciiToLower = toLowerL (extOf path) from rfl, he] at hsfx
      exact hsfx
    · exact suffix_json_detect path
  have hyaml : detectFormat path = ConfigFormat.FormatYAML ↔
      ((chars ".yml").IsSuffix (toLowerL path) ∨
       (chars ".yaml").IsSuffix (toLowerL path)) := by
    constructor
    · intro h
      have he := (detectFormat_yaml_char path).mp h
      have hsfx := (extOf_isSuffix path).map asciiToLower
      rw [show (extOf path).map asciiToLower = toLowerL (extOf path) from rfl] at hsfx
      rcases he with he | he
      · left; rw [he] at hsfx; exact hsfx
      · right; rw [he] at hsfx; exact hsfx
    · rintro (h | h)
      · exact suffix_yml_detect path h
      · exact suffix_yaml_detect path h
  refine ⟨hjson, hyaml, ?_⟩
  intro h1 h2 h3
  cases hd : detectFormat path with
  | FormatEnv => rfl
  | FormatJSON => exact absurd (hjson.mp hd) h1
  | FormatYAML =>
    rcases hyaml.mp hd with h | h
    · exact absurd h h2
    · exact absurd h h3

/-- Witness for C8 at a concrete extensionless path. -/
theorem C8_detectFormat_total_witness :
    detectFormat (chars "noext") = ConfigFormat.FormatEnv :=
  (C8_detectFormat_total (chars "noext")).2.2 (by decide) (by decide) (by decide)

/-- C9 counterexample: the claim says the store-key transformation is a
no-op for a flattened key without a dot, so that the dotless key port
would be stored under port; on the code, writing the flat entry
port = "8080" stores it under PORT, and no store entry for port exists. -/
theorem C9_dotless_key_counterexample :
    setEnvironmentVariables [(chars "port", chars "8080")] []
      = [(chars "PORT", chars "8080")]
    ∧ lookupStore (setEnvironmentVariables [(chars "port", chars "8080")] [])
        (chars "port") = none := by
  constructor <;> decide

/-- C9 (amended): the final store-key transformation (replace every dot
by an underscore, then upper-case) is applied to every flattened key,
dotted or not: on a dotless key the dot-replacement is the identity but
the upper-casing still applies, every written pair lands under its
transformed key, and the dotless lower-case key port is stored under
PORT. -/
theorem C9_transform_every_key :
    (∀ k : List Char, '.' ∉ k → envKey k = toUpperL k)
    ∧ (∀ (k v : List Char) (st : Store),
        lookupStore (setEnvironmentVariables [(k, v)] st) (envKey k) = some v)
    ∧ lookupStore (setEnvironmentVariables [(chars "port", chars "8080")] [])
        (chars "PORT") = some (chars "8080") := by
  refine ⟨?_, ?_, by decide⟩
  · intro k hk
    rw [envKey]
    congr 1
    induction k with
    | nil => rfl
    | cons a t ih =>
      rw [List.map_cons]
      have ha : ¬ a = '.' := fun hc => hk (hc ▸ List.mem_cons_self a t)
      rw [if_neg ha, ih (fun hm => hk (List.mem_cons_of_mem a hm))]
  · intro k v st
    rw [setEnvironmentVariables, setEnvironmentVariables, lookup_setEnv, if_pos rfl]

/-- Witness for C9 (amended) at the concrete dotless key port. -/
theorem C9_transform_every_key_witness :
    envKey (chars "port") = toUpperL (chars "port") :=
  C9_transform_every_key.1 (chars "port") (by decide)

/-- C10: a key whose store value is the empty string is indistinguishable
from an absent key through the typed getters — Str, Int and Bool each
return the first supplied default when one is given and otherwise the
type's zero value, and each agrees with its own result on the store with
the key removed. -/
theorem C10_empty_value_as_absent (st : Store) (k : List Char)
    (sds : List (List Char)) (ids : List Int) (bds : List Bool)
    (h : lookupStore st k = some []) :
    getStr st k sds = sds.headD [] ∧
    getInt st k ids = ids.headD 0 ∧
    getBool st k bds = bds.headD false ∧
    getStr st k sds = getStr (unsetEnv st k) k sds ∧
    getInt st k ids = getInt (unsetEnv st k) k ids ∧
    getBool st k bds = getBool (unsetEnv st k) k bds := by
  have hv : osGetenv st k = [] := by rw [osGetenv, h]; rfl
  have hv2 : osGetenv (unsetEnv st k) k = [] := by
    rw [osGetenv, lookup_unsetEnv, if_pos rfl]; rfl
  refine ⟨?_, ?_, ?_, ?_, ?_, ?_⟩ <;> simp [getStr, getInt, getBool, hv, hv2]

/-- Witness for C10 at a concrete store binding K to the empty string. -/
theorem C10_empty_value_as_absent_witness :
    getStr [(chars "K", [])] (chars "K") [chars "dflt"] = chars "dflt"
    ∧ getInt [(chars "K", [])] (chars "K") [7] = 7
    ∧ getBool [(chars "K", [])] (chars "K") [true] = true :=
  ⟨(C10_empty_value_as_absent [(chars "K", [])] (chars "K")
      [chars "dflt"] [7] [true] (by decide)).1,
   (C10_empty_value_as_absent [(chars "K", [])] (chars "K")
      [chars "dflt"] [7] [true] (by decide)).2.1,
   (C10_empty_value_as_absent [(chars "K", [])] (chars "K")
      [chars "dflt"] [7] [true] (by decide)).2.2.1⟩
